import Mathlib

/-!
Verification of the HITL-with-VS-Code engine core against its specification.

The Python source is shallowly embedded: strings are `List Char`, the
substring searches `str.find` / `str.rfind` become `firstOcc` / `lastOcc`,
and each fallible operation returns an `Option`.
-/

namespace HITL

/-- Python whitespace set used by `str.strip()` (ASCII). -/
def isPySpace (c : Char) : Bool :=
  c = ' ' || c = '\t' || c = '\n' || c = '\r' || c = '\x0b' || c = '\x0c'

/-- `str.strip()`: drop leading and trailing whitespace. -/
def pyStrip (s : List Char) : List Char :=
  ((s.dropWhile isPySpace).reverse.dropWhile isPySpace).reverse

/-- Drop the last `n` characters, like Python `s[:-n]` on a long-enough string. -/
def dropRightL (s : List Char) (n : Nat) : List Char :=
  s.take (s.length - n)

/-- Python slice `s[a:b]` for non-negative bounds (clamping, empty when `a ≥ b`). -/
def slice (s : List Char) (a b : Nat) : List Char :=
  (s.take b).drop a

/-- Index of the first occurrence of `pat` in a string, like Python `str.find`
(`none` plays the role of `-1`). -/
def firstOcc (pat : List Char) : List Char → Option Nat
  | [] => if pat.isPrefixOf ([] : List Char) then some 0 else none
  | c :: rest =>
    if pat.isPrefixOf (c :: rest) then some 0
    else (firstOcc pat rest).map (· + 1)

/-- Index of the last occurrence of `pat` in a string, like Python `str.rfind`. -/
def lastOcc (pat : List Char) : List Char → Option Nat
  | [] => if pat.isPrefixOf ([] : List Char) then some 0 else none
  | c :: rest =>
    match lastOcc pat rest with
    | some j => some (j + 1)
    | none => if pat.isPrefixOf (c :: rest) then some 0 else none

/-- Python `pat in s` substring test. -/
def containsSub (s pat : List Char) : Bool :=
  (firstOcc pat s).isSome

/-- Lower-case a string character-wise (models `re.IGNORECASE` matching of
ASCII literal patterns). -/
def lowerL (s : List Char) : List Char :=
  s.map Char.toLower

/-! ## `MCPToolRegistry` (src/core/mcp_tool_definitions.py) -/

/-- Tail of `MCPToolRegistry._extract_tag_content` once the slice between the
outermost markers is taken: strip an optional CDATA wrapper, then trim. -/
def finish_content (content : List Char) : List Char :=
  let t := pyStrip content
  let c :=
    if ("<![CDATA[".data).isPrefixOf t && ("]]>".data).isSuffixOf t then
      dropRightL (t.drop 9) 3
    else content
  pyStrip c

/-- `MCPToolRegistry._extract_tag_content`: slice from the *first* occurrence
of `<tag>` to the *last* occurrence of `</tag>` (Python `find` / `rfind`),
then strip CDATA and trim; `""` when the markers are absent or inverted. -/
def extract_tag_content (xml : List Char) (tag : String) : List Char :=
  let startTag := ("<" ++ tag ++ ">").data
  let endTag := ("</" ++ tag ++ ">").data
  match firstOcc startTag xml, lastOcc endTag xml with
  | some s, some e =>
    if s < e then finish_content (slice xml (s + startTag.length) e)
    else []
  | some _, none => []
  | none, _ => []

/-- Model of `re.search(r"<tag>\s*(.*?)\s*</tag>", s, DOTALL | IGNORECASE)`
followed by `.group(1).strip()`: the match starts at the first
(case-insensitive) occurrence of the opening tag, the lazy group ends at the
first subsequent closing tag, and the surrounding `\s*` plus the final
`.strip()` amount to trimming the enclosed slice. -/
def regex_tag_value (s : List Char) (tag : String) : Option (List Char) :=
  let o := ("<" ++ tag ++ ">").data
  let c := ("</" ++ tag ++ ">").data
  match firstOcc (lowerL o) (lowerL s) with
  | none => none
  | some i =>
    let rest := s.drop (i + o.length)
    match firstOcc (lowerL c) (lowerL rest) with
    | none => none
    | some j => some (pyStrip (rest.take j))

/-- A parsed tool call: the `{"tool": ..., "params": ...}` dict returned by
`MCPToolRegistry.parse_tool_call`, one constructor per recognised tool. -/
inductive ToolCall where
  | write_to_file (path content : List Char)
  | apply_diff (path search_block replace_block : List Char)
  | execute_command (command : List Char)
deriving DecidableEq

/-- `MCPToolRegistry.parse_tool_call`: extract the `<tool_code>` wrapper, the
tool name and the parameter block with non-greedy regexes, then extract the
parameters of the recognised tool; `none` (Python `None`) whenever the
resulting parameter dict would be empty. -/
def parse_tool_call (llm_response : List Char) : Option ToolCall :=
  match regex_tag_value llm_response "tool_code" with
  | none => none
  | some inner_xml =>
    match regex_tag_value inner_xml "tool_name" with
    | none => none
    | some tool_name =>
      match regex_tag_value inner_xml "parameters" with
      | none => none
      | some params_xml =>
        if tool_name = "write_to_file".data then
          match regex_tag_value params_xml "path" with
          | some p =>
            some (.write_to_file p (extract_tag_content params_xml "content"))
          | none => none
        else if tool_name = "apply_diff".data then
          match regex_tag_value params_xml "path" with
          | some p =>
            some (.apply_diff p (extract_tag_content params_xml "search_block")
              (extract_tag_content params_xml "replace_block"))
          | none => none
        else if tool_name = "execute_command".data then
          match regex_tag_value params_xml "command" with
          | some cmd => some (.execute_command cmd)
          | none => none
        else none

/-! ## JSON (model of Python `json.loads`, used by `CodingCrewNodes._extract_json`) -/

/-- A JSON value; numbers keep their source lexeme (the Python reader also
accepts the non-standard `NaN` / `Infinity` / `-Infinity` constants). -/
inductive Json where
  | null
  | bool (b : Bool)
  | num (lexeme : List Char)
  | str (s : List Char)
  | arr (elems : List Json)
  | obj (members : List (List Char × Json))

/-- JSON whitespace, as skipped by the Python decoder. -/
def isJsonWs (c : Char) : Bool :=
  c = ' ' || c = '\t' || c = '\n' || c = '\r'

def skipWs (s : List Char) : List Char :=
  s.dropWhile isJsonWs

def isHex (c : Char) : Bool :=
  c.isDigit || ('a' ≤ c && c ≤ 'f') || ('A' ≤ c && c ≤ 'F')

def hexVal (c : Char) : Nat :=
  if c.isDigit then c.toNat - 48
  else if 'a' ≤ c && c ≤ 'f' then c.toNat - 87
  else if 'A' ≤ c && c ≤ 'F' then c.toNat - 55
  else 0

/-- Single-character JSON string escapes. -/
def escChar (c : Char) : Option Char :=
  if c = '"' then some '"'
  else if c = '\\' then some '\\'
  else if c = '/' then some '/'
  else if c = 'b' then some '\x08'
  else if c = 'f' then some '\x0c'
  else if c = 'n' then some '\n'
  else if c = 'r' then some '\r'
  else if c = 't' then some '\t'
  else none

/-- Body of a JSON string after the opening quote: decoded content and the
remaining input.  Strict mode: raw control characters are rejected. -/
def parseJStrAux (fuel : Nat) (s : List Char) : Option (List Char × List Char) :=
  match fuel, s with
  | 0, _ => none
  | _, [] => none
  | fuel + 1, c :: rest =>
    if c = '"' then some ([], rest)
    else if c = '\\' then
      match rest with
      | [] => none
      | e :: rest2 =>
        if e = 'u' then
          match rest2 with
          | h1 :: h2 :: h3 :: h4 :: rest3 =>
            if isHex h1 && isHex h2 && isHex h3 && isHex h4 then
              (parseJStrAux fuel rest3).map fun pr =>
                (Char.ofNat (((hexVal h1 * 16 + hexVal h2) * 16 + hexVal h3) * 16 + hexVal h4) :: pr.1, pr.2)
            else none
          | _ => none
        else
          match escChar e with
          | some ec => (parseJStrAux fuel rest2).map fun pr => (ec :: pr.1, pr.2)
          | none => none
    else if c.toNat < 32 then none
    else (parseJStrAux fuel rest).map fun pr => (c :: pr.1, pr.2)

def parseJStr (s : List Char) : Option (List Char × List Char) :=
  parseJStrAux (s.length + 1) s

/-- The Python `json` number regex `(-?(0|[1-9]\d*))(\.\d+)?([eE][-+]?\d+)?`,
matched greedily at the head of the input; yields lexeme and rest. -/
def parseNumber (s : List Char) : Option (List Char × List Char) :=
  let (neg, s1) : List Char × List Char :=
    match s with
    | '-' :: r => (['-'], r)
    | _ => ([], s)
  match s1 with
  | [] => none
  | c :: r =>
    if c = '0' || (c.isDigit && c ≠ '0') then
      let (intDs, r1) : List Char × List Char :=
        if c = '0' then ([c], r) else (c :: r.takeWhile Char.isDigit, r.dropWhile Char.isDigit)
      let (fracDs, r2) : List Char × List Char :=
        match r1 with
        | '.' :: r1a =>
          let ds := r1a.takeWhile Char.isDigit
          if ds.isEmpty then ([], r1) else ('.' :: ds, r1a.dropWhile Char.isDigit)
        | _ => ([], r1)
      let (expDs, r3) : List Char × List Char :=
        match r2 with
        | e :: r2a =>
          if e = 'e' || e = 'E' then
            let (sgn, r2b) : List Char × List Char :=
              match r2a with
              | '+' :: rb => (['+'], rb)
              | '-' :: rb => (['-'], rb)
              | _ => ([], r2a)
            let ds := r2b.takeWhile Char.isDigit
            if ds.isEmpty then ([], r2) else (e :: (sgn ++ ds), r2b.dropWhile Char.isDigit)
          else ([], r2)
        | [] => ([], r2)
      some (neg ++ intDs ++ fracDs ++ expDs, r3)
    else none

mutual

/-- One JSON value at the head of the input (dispatch order follows the
Python scanner: string, object, array, literals, number, constants). -/
def parseJValue : Nat → List Char → Option (Json × List Char)
  | 0, _ => none
  | fuel + 1, s =>
    match s with
    | [] => none
    | c :: rest =>
      if c = '"' then
        (parseJStr rest).map fun pr => (.str pr.1, pr.2)
      else if c = '\x7b' then
        let r := skipWs rest
        match r with
        | '\x7d' :: r2 => some (.obj [], r2)
        | _ => (parseJMembers fuel r).map fun pr => (.obj pr.1, pr.2)
      else if c = '[' then
        let r := skipWs rest
        match r with
        | ']' :: r2 => some (.arr [], r2)
        | _ => (parseJItems fuel r).map fun pr => (.arr pr.1, pr.2)
      else if ("null".data).isPrefixOf s then some (.null, s.drop 4)
      else if ("true".data).isPrefixOf s then some (.bool true, s.drop 4)
      else if ("false".data).isPrefixOf s then some (.bool false, s.drop 5)
      else
        match parseNumber s with
        | some pr => some (.num pr.1, pr.2)
        | none =>
          if ("NaN".data).isPrefixOf s then some (.num ("NaN".data), s.drop 3)
          else if ("Infinity".data).isPrefixOf s then some (.num ("Infinity".data), s.drop 8)
          else if ("-Infinity".data).isPrefixOf s then some (.num ("-Infinity".data), s.drop 9)
          else none

/-- Comma-separated `"key": value` members, ending in `}` (no trailing comma,
keys must be strings). -/
def parseJMembers : Nat → List Char → Option (List (List Char × Json) × List Char)
  | 0, _ => none
  | fuel + 1, s =>
    match s with
    | '"' :: r =>
      match parseJStr r with
      | none => none
      | some (key, r2) =>
        match skipWs r2 with
        | ':' :: r4 =>
          match parseJValue fuel (skipWs r4) with
          | none => none
          | some (v, r5) =>
            match skipWs r5 with
            | '\x7d' :: r6 => some ([(key, v)], r6)
            | ',' :: r6 =>
              (parseJMembers fuel (skipWs r6)).map fun pr => ((key, v) :: pr.1, pr.2)
            | _ => none
        | _ => none
    | _ => none

/-- Comma-separated array items, ending in `]` (no trailing comma). -/
def parseJItems : Nat → List Char → Option (List Json × List Char)
  | 0, _ => none
  | fuel + 1, s =>
    match parseJValue fuel s with
    | none => none
    | some (v, r) =>
      match skipWs r with
      | ']' :: r2 => some ([v], r2)
      | ',' :: r2 => (parseJItems fuel (skipWs r2)).map fun pr => (v :: pr.1, pr.2)
      | _ => none

end

/-- Python `json.loads`: one value, surrounding whitespace allowed, the whole
input must be consumed; `none` models a raised `JSONDecodeError`. -/
def json_loads (s : List Char) : Option Json :=
  match parseJValue (2 * s.length + 8) (skipWs s) with
  | none => none
  | some (v, rest) => if (skipWs rest).isEmpty then some v else none

/-! ## `CodingCrewNodes._extract_json` (src/agents/crews/coding_crew/nodes.py) -/

/-- Lazy tail of the fenced-block pattern: find the first position holding a
`]` or `}` that is followed by `\s*` and a closing triple backtick; returns
the group characters up to and including that close. -/
def lazyClose : List Char → Option (List Char)
  | [] => none
  | c :: rest =>
    if (c = ']' || c = '\x7d') && ("```".data).isPrefixOf (rest.dropWhile isPySpace) then
      some [c]
    else (lazyClose rest).map fun mid => c :: mid

/-- Rest of the fenced-block pattern once an opening triple backtick has been
consumed: optional (case-insensitive) `json` tag, `\s*`, then the lazy group
`[\[\{].*?[\]\}]` followed by `\s*` and a closing fence. -/
def fencedAfterTicks (t : List Char) : Option (List Char) :=
  let t1 := if ("json".data).isPrefixOf (lowerL t) then t.drop 4 else t
  let t2 := t1.dropWhile isPySpace
  match t2 with
  | [] => none
  | c :: r =>
    if c = '[' || c = '\x7b' then
      (lazyClose r).map fun mid => c :: mid
    else none

/-- Model of `re.search` for the pattern
three backticks, `(?:json)?\s*([\[\{].*?[\]\}])\s*`, three backticks
(DOTALL, IGNORECASE): leftmost opening fence from which the rest of the
pattern matches, returning `group(1)`. -/
def fencedJsonBlock : List Char → Option (List Char)
  | [] => none
  | c :: rest =>
    if ("```".data).isPrefixOf (c :: rest) then
      match fencedAfterTicks ((c :: rest).drop 3) with
      | some g => some g
      | none => fencedJsonBlock rest
    else fencedJsonBlock rest

/-- `CodingCrewNodes._extract_json`: strip, try the single fenced-block
pattern and `json.loads` its group (a parse failure aborts — the `except`
returns `None`); otherwise slice from the first `[` to the last `]` when a
`[` is present, else from the first `{` to the last `}` when a `{` is
present, and `json.loads` the slice.  All failures yield `none`. -/
def _extract_json (text : List Char) : Option Json :=
  let t := pyStrip text
  match fencedJsonBlock t with
  | some body => json_loads body
  | none =>
    if containsSub t ("[".data) then
      match firstOcc ("[".data) t, lastOcc ("]".data) t with
      | some st, some en => json_loads (slice t st (en + 1))
      | _, _ => none
    else if containsSub t ("\x7b".data) then
      match firstOcc ("\x7b".data) t, lastOcc ("\x7d".data) t with
      | some st, some en => json_loads (slice t st (en + 1))
      | _, _ => none
    else none

/-- Modelled from the spec: attempt (a), the content of a fenced code block
tagged `json`. -/
def spec_fenced_tagged (t : List Char) : Option (List Char) :=
  match firstOcc ("```json".data) t with
  | none => none
  | some i =>
    let rest := t.drop (i + 7)
    match firstOcc ("```".data) rest with
    | none => none
    | some j => some (pyStrip (rest.take j))

/-- Modelled from the spec: attempt (b), the content of any fenced code
block. -/
def spec_fenced_any (t : List Char) : Option (List Char) :=
  match firstOcc ("```".data) t with
  | none => none
  | some i =>
    let rest := t.drop (i + 3)
    match firstOcc ("```".data) rest with
    | none => none
    | some j => some (pyStrip (rest.take j))

/-- Modelled from the spec: attempt (c), the substring from the first `{` to
the last `}`. -/
def spec_brace_slice (t : List Char) : Option (List Char) :=
  match firstOcc ("\x7b".data) t, lastOcc ("\x7d".data) t with
  | some st, some en => some (slice t st (en + 1))
  | _, _ => none

/-- Modelled from the spec: attempt (d), the substring from the first `[` to
the last `]`. -/
def spec_bracket_slice (t : List Char) : Option (List Char) :=
  match firstOcc ("[".data) t, lastOcc ("]".data) t with
  | some st, some en => some (slice t st (en + 1))
  | _, _ => none

/-- First syntactically valid JSON value among a list of candidate
substrings. -/
def firstValid : List (Option (List Char)) → Option Json
  | [] => none
  | none :: rest => firstValid rest
  | some s :: rest =>
    match json_loads s with
    | some v => some v
    | none => firstValid rest

/-- `extractJSON` as the specification words it: the first syntactically
valid JSON value obtained by trying, in order, attempts (a)–(d); `none` when
all four fail. -/
def extractJSON_spec (text : List Char) : Option Json :=
  firstValid [spec_fenced_tagged text, spec_fenced_any text,
    spec_brace_slice text, spec_bracket_slice text]

/-! ## `StatefulSandbox` (src/tools/sandbox.py) -/

/-- The stderr string returned by `execute_code` when Docker is unavailable. -/
def DOCKER_UNAVAILABLE_STDERR : List Char :=
  ("[System] Docker unavailable. Code execution skipped. Please enable Docker to run code safely.").data

/-- The marker tested by `executor_node`. -/
def DOCKER_UNAVAILABLE_MARKER : List Char :=
  ("[System] Docker unavailable").data

/-- Outcome of the in-container run of the runner script: `ok` carries the
target program's two output streams (which `docker exec_run` hands back as
one merged byte stream, the runner printing stdout then stderr) and the
extracted image artifacts; `hostError` is a host-side exception. -/
inductive ExecOutcome where
  | ok (progStdout progStderr : List Char) (images : List (List Char))
  | hostError (msg : List Char)

/-- `StatefulSandbox.execute_code`, as `(stdout, stderr, images)`.  With
Docker available and no host-side exception the decoded `exec_run` output —
the merged stream, program stdout then program stderr, each terminated by
the runner's `print` newline — is returned verbatim as `stdout`, and
`stderr` is the hard-coded empty string. -/
def execute_code (docker_available : Bool) (o : ExecOutcome) :
    List Char × List Char × List (List Char) :=
  if docker_available then
    match o with
    | .ok pOut pErr images => (pOut ++ '\n' :: (pErr ++ ['\n']), [], images)
    | .hostError m => ([], ("System Error: ").data ++ m, [])
  else ([], DOCKER_UNAVAILABLE_STDERR, [])

/-- The string returned by `execute_command` when Docker is unavailable. -/
def DOCKER_UNAVAILABLE_COMMAND : List Char :=
  ("[System] Docker unavailable. Command execution skipped.").data

/-- `StatefulSandbox.execute_command`: the decoded `exec_run` output when
Docker is available, the explicit marker string otherwise. -/
def execute_command (docker_available : Bool) (output : List Char) : List Char :=
  if docker_available then output else DOCKER_UNAVAILABLE_COMMAND

/-! ## `CodingCrewNodes.executor_node` (src/agents/crews/coding_crew/nodes.py) -/

/-- The `passed` computation of `executor_node` after a normal execution:
start from `True`, clear on a `"Error"` or `"Traceback"` substring, clear on
the Docker-unavailable marker. -/
def executor_passed (stderr : List Char) : Bool :=
  let p := true
  let p := if containsSub stderr ("Error".data) || containsSub stderr ("Traceback".data)
    then false else p
  if containsSub stderr DOCKER_UNAVAILABLE_MARKER then false else p

/-! ## `GeminiKeyRotator` (src/core/rotator.py) -/

/-- The process-global state mutated by `genai.configure` (guarded in the
source by `_GENAI_GLOBAL_LOCK`). -/
structure GenaiState where
  configuredKey : Option (List Char)
deriving DecidableEq

/-- `genai.configure(api_key=key)`: installs the key as process-global SDK
state. -/
def genai_configure (_g : GenaiState) (key : List Char) : GenaiState :=
  { configuredKey := some key }

/-- A record of one `generate_content` request: which credential the request
was actually issued with (the SDK reads the globally configured key). -/
structure RequestRecord where
  usedKey : Option (List Char)
deriving DecidableEq

/-- The critical section of `call_gemini_with_rotation` (no-cache success
path): under `_GENAI_GLOBAL_LOCK`, `genai.configure(api_key=key)` and then
`model.generate_content`, which issues the request with the globally
configured key. -/
def call_attempt (g : GenaiState) (key : List Char) : GenaiState × RequestRecord :=
  let g1 := genai_configure g key
  (g1, { usedKey := g1.configuredKey })

/-- A serialised sequence of locked critical sections, one per caller key
(the lock forbids interleaving inside a section); returns the final global
state and, per caller, the pair (caller's key, key used by its request). -/
def run_calls (g : GenaiState) : List (List Char) → GenaiState × List (List Char × Option (List Char))
  | [] => (g, [])
  | k :: ks =>
    let (g1, req) := call_attempt g k
    let (g2, rest) := run_calls g1 ks
    (g2, (k, req.usedKey) :: rest)

/-! ## Task admission (src/api_server.py, `start_task`) -/

/-- The outcome of `POST /api/start_task`: the source either accepts (HTTP
200 with the ids) or would refuse with HTTP 503 ("server busy"). -/
inductive StartTaskResult where
  | accepted (task_id : List Char)
  | serverBusy
deriving DecidableEq

/-- The admission-relevant server state: task ids with an open event stream
(one per admitted, unfinished task). -/
structure TaskRuntime where
  active_streams : List (List Char)
deriving DecidableEq

/-- `start_task`: generates ids, creates the event stream and schedules the
background runner unconditionally — the source contains no admission
semaphore, no `MAX_CONCURRENT_TASKS` and no 503 path. -/
def start_task (rt : TaskRuntime) (task_id : List Char) : StartTaskResult × TaskRuntime :=
  (.accepted task_id, ⟨rt.active_streams ++ [task_id]⟩)

/-! ## Background runner events (src/api_server.py, `run_workflow_background`) -/

/-- SSE event types pushed by the engine. -/
inductive EventType where
  | status
  | usage_update
  | tool_proposal
  | code_generated
  | image_generated
  | error
  | finish
deriving DecidableEq

/-- The push-relevant shape of one streamed `project_state` observation;
each field is the Python truthiness of the tested attribute (so
`lastErrorTruthy` is false both for `None` and for an empty string). -/
structure StateObs where
  hasCostStats : Bool
  pendingToolCall : Bool
  hasCodeBlocks : Bool
  hasImageArtifacts : Bool
  lastErrorTruthy : Bool

/-- Events pushed for one observed `project_state`, in source order. -/
def eventsForObs (o : StateObs) : List EventType :=
  (if o.hasCostStats then [.usage_update] else [])
    ++ (if o.pendingToolCall then [.tool_proposal] else [])
    ++ (if o.hasCodeBlocks then [.code_generated] else [])
    ++ (if o.hasImageArtifacts then [.image_generated] else [])
    ++ (if o.lastErrorTruthy then [.error] else [])

/-- The full sequence of events `run_workflow_background` pushes for a task:
the initial `status`, the per-observation events for the prefix of the
stream processed before any failure, the `error` event from the `except`
arms when the workflow raised, and — from the `finally` block — the terminal
`finish`. -/
def runner_events (processed : List StateObs) (failure : Option (List Char)) :
    List EventType :=
  [.status] ++ processed.flatMap eventsForObs
    ++ (match failure with | some _ => [.error] | none => [])
    ++ [.finish]

/-- The queue contents after the runner completes: the pushed events then
the `None` end-of-stream sentinel from `close_stream`. -/
def runner_queue (processed : List StateObs) (failure : Option (List Char)) :
    List (Option EventType) :=
  (runner_events processed failure).map some ++ [none]

/-! ## `route_step` and the crew graph (src/agents/crews/coding_crew/graph.py) -/

/-- The router-relevant fields of `CodingCrewState`. -/
structure CrewState where
  review_status : String
  iteration_count : Nat
  current_step_index : Nat
  plan_length : Nat
deriving DecidableEq

/-- `route_step`: retry the current step, advance, or finish. -/
def route_step (s : CrewState) : String :=
  if s.review_status ≠ "approve" then
    if 5 ≤ s.iteration_count then "summarize" else "reflect"
  else if s.current_step_index + 1 < s.plan_length then "next_step"
  else "summarize"

/-- Nodes of the coding-crew graph (the parallel reviewer/security fork is
folded into a single review stage, which is where `review_status` is
produced for the aggregator). -/
inductive Node where
  | planner
  | coder
  | executor
  | review
  | aggregator
  | reflector
  | step_manager
  | summarizer
  | terminal
deriving DecidableEq

/-- One step of the compiled graph.  LLM-dependent outputs (the plan, the
review verdict) are nondeterministic. -/
inductive GStep : Node × CrewState → Node × CrewState → Prop where
  | planner (s : CrewState) (n : Nat) :
      GStep (.planner, s) (.coder, { s with plan_length := n, current_step_index := 0 })
  | coder (s : CrewState) :
      GStep (.coder, s) (.executor, { s with iteration_count := s.iteration_count + 1 })
  | executor (s : CrewState) :
      GStep (.executor, s) (.review, s)
  | review (s : CrewState) (verdict : String) :
      GStep (.review, s) (.aggregator, { s with review_status := verdict })
  | routeReflect (s : CrewState) :
      route_step s = "reflect" → GStep (.aggregator, s) (.reflector, s)
  | routeNext (s : CrewState) :
      route_step s = "next_step" → GStep (.aggregator, s) (.step_manager, s)
  | routeSummarize (s : CrewState) :
      route_step s = "summarize" → GStep (.aggregator, s) (.summarizer, s)
  | reflector (s : CrewState) :
      GStep (.reflector, s) (.coder, s)
  | step_manager (s : CrewState) :
      GStep (.step_manager, s)
        (.coder, { s with current_step_index := s.current_step_index + 1, iteration_count := 0 })
  | summarizer (s : CrewState) :
      GStep (.summarizer, s) (.terminal, s)

/-- Configurations reachable from an initial configuration. -/
inductive GReach (init : Node × CrewState) : Node × CrewState → Prop where
  | refl : GReach init init
  | tail {b c : Node × CrewState} : GReach init b → GStep b c → GReach init c

/-- The initial configuration of one crew run: entry point `planner`, with
`iteration_count` defaulting to `0` (the initial state dict carries only
`project_state`). -/
def initConfig : Node × CrewState :=
  (.planner, { review_status := "reject", iteration_count := 0,
               current_step_index := 0, plan_length := 0 })

/-! ## Theorems -/

/-- C3: `executionPassed` is computed exactly as `stderr` containing neither
`"Error"` nor `"Traceback"` nor the engine-unavailable marker; when Docker is
unavailable every execution returns empty stdout with the marker in stderr,
and that state is never treated as a passing execution. -/
theorem executor_passed_is_stderr_scan :
    (∀ stderr : List Char,
      executor_passed stderr =
        (!containsSub stderr ("Error".data) && !containsSub stderr ("Traceback".data)
          && !containsSub stderr DOCKER_UNAVAILABLE_MARKER)) ∧
    (∀ o : ExecOutcome, execute_code false o = ([], DOCKER_UNAVAILABLE_STDERR, [])) ∧
    (∀ output : List Char, execute_command false output = DOCKER_UNAVAILABLE_COMMAND) ∧
    containsSub DOCKER_UNAVAILABLE_STDERR DOCKER_UNAVAILABLE_MARKER = true ∧
    executor_passed DOCKER_UNAVAILABLE_STDERR = false := by
  refine ⟨?_, ?_, ?_, ?_, ?_⟩
  · intro stderr
    simp only [executor_passed]
    cases hE : containsSub stderr ("Error".data) <;>
      cases hT : containsSub stderr ("Traceback".data) <;>
        cases hM : containsSub stderr DOCKER_UNAVAILABLE_MARKER <;> simp
  · intro o; rfl
  · intro output; rfl
  · decide
  · decide

/-- C10: with Docker available and no host-side exception, `execute_code`
returns the hard-coded empty string as stderr; the program's entire error
stream (tracebacks, the timeout message) sits inside the merged stdout
component. -/
theorem execute_code_stderr_empty :
    ∀ (pOut pErr : List Char) (images : List (List Char)),
      (execute_code true (.ok pOut pErr images)).2.1 = [] ∧
      pErr <:+: (execute_code true (.ok pOut pErr images)).1 := by
  intro pOut pErr images
  refine ⟨rfl, ⟨pOut ++ ['\n'], ['\n'], ?_⟩⟩
  simp [execute_code]

/-- C4 counterexample: a 100 KiB program output is returned by
`execute_code` without any truncation — its stdout has the full length
102402, far above the claimed 50 KB + marker bound. -/
theorem execute_code_no_truncation_cex :
    ((execute_code true (.ok (List.replicate 102400 'a') [] [])).1).length = 102402 ∧
    ¬(102402 ≤ 51200 + 1024) := by
  constructor
  · show ((List.replicate 102400 'a') ++ '\n' :: (([] : List Char) ++ ['\n'])).length = 102402
    rw [List.length_append, List.length_replicate]
    rfl
  · decide

/-- C4 amended: `execute_code` truncates nothing — the returned stdout is the
merged program output verbatim, of length `|stdout| + |stderr| + 2` (the two
runner newlines), with no upper bound and no truncation marker. -/
theorem execute_code_stdout_length :
    ∀ (pOut pErr : List Char) (images : List (List Char)),
      (execute_code true (.ok pOut pErr images)).1 = pOut ++ '\n' :: (pErr ++ ['\n']) ∧
      ((execute_code true (.ok pOut pErr images)).1).length
        = pOut.length + pErr.length + 2 := by
  intro pOut pErr images
  refine ⟨rfl, ?_⟩
  simp [execute_code]
  omega

/-- C5 counterexample: one `call_gemini_with_rotation` critical section
installs the selected key into the process-global `genai` configuration —
the global state is mutated, refuting "never installed as process-global
state". -/
theorem call_installs_global_key_cex :
    (call_attempt ⟨none⟩ ("k1".data)).1 ≠ (⟨none⟩ : GenaiState) ∧
    (call_attempt ⟨none⟩ ("k1".data)).1.configuredKey = some ("k1".data) := by
  decide

/-- C5 amended: the key is installed as process-global `genai` state, but the
configure-and-generate sequence runs atomically under `_GENAI_GLOBAL_LOCK`,
so in any serialised sequence of calls every request is issued with exactly
its own caller's key. -/
theorem run_calls_no_key_leak :
    ∀ (g : GenaiState) (ks : List (List Char)) (p : List Char × Option (List Char)),
      p ∈ (run_calls g ks).2 → p.2 = some p.1 := by
  intro g ks
  induction ks generalizing g with
  | nil => intro p hp; simp [run_calls] at hp
  | cons k rest ih =>
    intro p hp
    simp only [run_calls, call_attempt, genai_configure] at hp
    rcases List.mem_cons.mp hp with h | h
    · subst h; rfl
    · exact ih _ p h

/-- C5 amended, witness at a concrete serialised trace of two callers. -/
theorem run_calls_no_key_leak_witness :
    (("k1".data, some ("k1".data)) ∈ (run_calls ⟨none⟩ [("k1".data), ("k2".data)]).2) ∧
    (("k1".data, some ("k1".data)) : List Char × Option (List Char)).2 = some ("k1".data) := by
  refine ⟨by decide, ?_⟩
  exact run_calls_no_key_leak ⟨none⟩ [("k1".data), ("k2".data)]
    ("k1".data, some ("k1".data)) (by decide)

/-- C6 counterexample: with five tasks already in flight, `start_task` still
admits the next task — there is no semaphore and no HTTP 503 "server busy"
path in the source. -/
theorem start_task_no_admission_gate_cex :
    (⟨[("t1".data), ("t2".data), ("t3".data), ("t4".data), ("t5".data)]⟩ :
        TaskRuntime).active_streams.length = 5 ∧
    (start_task ⟨[("t1".data), ("t2".data), ("t3".data), ("t4".data), ("t5".data)]⟩
        ("t6".data)).1 = .accepted ("t6".data) ∧
    (start_task ⟨[("t1".data), ("t2".data), ("t3".data), ("t4".data), ("t5".data)]⟩
        ("t6".data)).1 ≠ .serverBusy := by
  refine ⟨rfl, rfl, by decide⟩

/-- C6 amended: `start_task` admits every request unconditionally — the
result is never `serverBusy` and the set of in-flight streams grows without
bound. -/
theorem start_task_always_admits :
    ∀ (rt : TaskRuntime) (t : List Char),
      (start_task rt t).1 = .accepted t ∧
      (start_task rt t).1 ≠ .serverBusy ∧
      (start_task rt t).2.active_streams.length = rt.active_streams.length + 1 := by
  intro rt t
  refine ⟨rfl, by simp [start_task], by simp [start_task]⟩

/-- Per-observation pushes never emit a `finish` event. -/
lemma eventsForObs_count_finish (o : StateObs) :
    (eventsForObs o).count EventType.finish = 0 := by
  obtain ⟨b1, b2, b3, b4, b5⟩ := o
  cases b1 <;> cases b2 <;> cases b3 <;> cases b4 <;> cases b5 <;> decide

/-- No `finish` event across the whole processed prefix. -/
lemma flatMap_count_finish (l : List StateObs) :
    (l.flatMap eventsForObs).count EventType.finish = 0 := by
  induction l with
  | nil => rfl
  | cons o rest ih =>
    simp [List.flatMap_cons, List.count_append, eventsForObs_count_finish, ih]

/-- C7: the runner pushes exactly one terminal `finish` event, last, on every
path — on failure paths the `finish` immediately follows the `error` event —
and then closes the queue with the end-of-stream sentinel. -/
theorem runner_stream_ends_with_finish :
    ∀ (processed : List StateObs) (failure : Option (List Char)),
      (runner_events processed failure).count EventType.finish = 1 ∧
      (runner_events processed failure).getLast? = some EventType.finish ∧
      (runner_queue processed failure).getLast? = some none ∧
      (∀ f, failure = some f →
        ∃ pre, runner_events processed failure = pre ++ [EventType.error, EventType.finish]) := by
  intro processed failure
  refine ⟨?_, ?_, ?_, ?_⟩
  · cases failure <;>
      simp [runner_events, List.count_append, flatMap_count_finish]
  · cases failure with
    | none =>
      have h : runner_events processed none
          = (EventType.status :: processed.flatMap eventsForObs) ++ [EventType.finish] := by
        simp [runner_events]
      rw [h, List.getLast?_concat]
    | some f =>
      have h : runner_events processed (some f)
          = (EventType.status :: (processed.flatMap eventsForObs ++ [EventType.error]))
            ++ [EventType.finish] := by
        simp [runner_events]
      rw [h, List.getLast?_concat]
  · simp [runner_queue]
  · intro f hf
    subst hf
    exact ⟨EventType.status :: processed.flatMap eventsForObs, by simp [runner_events]⟩

/-- C7 witness: a failing task that streamed no states still ends its queue
with `error` then a single final `finish`. -/
theorem runner_stream_ends_with_finish_witness :
    (runner_events [] (some ("boom".data))).count EventType.finish = 1 ∧
    (runner_events [] (some ("boom".data))).getLast? = some EventType.finish ∧
    (∃ pre, runner_events [] (some ("boom".data)) = pre ++ [EventType.error, EventType.finish]) := by
  have h := runner_stream_ends_with_finish [] (some ("boom".data))
  exact ⟨h.1, h.2.1, h.2.2.2 ("boom".data) rfl⟩

/-- Per-node bound on `iteration_count` that is preserved by every graph
step: at most 4 entering a coder-feeding node, at most 5 elsewhere. -/
def nodeCap : Node → Nat
  | .planner => 4
  | .coder => 4
  | .reflector => 4
  | _ => 5

/-- The per-node bound is inductive along `GStep`. -/
lemma gstep_preserves_cap {b c : Node × CrewState}
    (hb : b.2.iteration_count ≤ nodeCap b.1) (h : GStep b c) :
    c.2.iteration_count ≤ nodeCap c.1 := by
  cases h with
  | planner s n => exact hb
  | coder s => simpa [nodeCap] using Nat.succ_le_succ (by simpa [nodeCap] using hb)
  | executor s => simpa [nodeCap] using hb
  | review s verdict => simpa [nodeCap] using hb
  | routeReflect s hr =>
    simp only [route_step] at hr
    by_cases ha : s.review_status ≠ "approve"
    · rw [if_pos ha] at hr
      by_cases hc : 5 ≤ s.iteration_count
      · rw [if_pos hc] at hr; exact absurd hr (by decide)
      · simp only [nodeCap]; omega
    · rw [if_neg ha] at hr
      by_cases hp : s.current_step_index + 1 < s.plan_length
      · rw [if_pos hp] at hr; exact absurd hr (by decide)
      · rw [if_neg hp] at hr; exact absurd hr (by decide)
  | routeNext s hr => simpa [nodeCap] using hb
  | routeSummarize s hr => simpa [nodeCap] using hb
  | reflector s => simpa [nodeCap] using hb
  | step_manager s => simp [nodeCap]
  | summarizer s => simpa [nodeCap] using hb

/-- The per-node bound holds at every reachable configuration. -/
lemma greach_cap {c : Node × CrewState} (h : GReach initConfig c) :
    c.2.iteration_count ≤ nodeCap c.1 := by
  induction h with
  | refl => decide
  | tail _ hstep ih => exact gstep_preserves_cap ih hstep

/-- C8: the router's ordered decision — forced `summarize` at the retry cap,
`reflect` below it, `next_step` on approval with remaining plan steps,
otherwise `summarize` — and, consequently, `iteration_count ≤ 5` at every
router evaluation reachable from the initial configuration. -/
theorem route_step_decision_and_cap :
    (∀ s : CrewState, s.review_status ≠ "approve" → 5 ≤ s.iteration_count →
        route_step s = "summarize") ∧
    (∀ s : CrewState, s.review_status ≠ "approve" → s.iteration_count < 5 →
        route_step s = "reflect") ∧
    (∀ s : CrewState, s.review_status = "approve" → s.current_step_index + 1 < s.plan_length →
        route_step s = "next_step") ∧
    (∀ s : CrewState, s.review_status = "approve" → ¬(s.current_step_index + 1 < s.plan_length) →
        route_step s = "summarize") ∧
    (∀ c : Node × CrewState, GReach initConfig c → c.1 = .aggregator →
        c.2.iteration_count ≤ 5) := by
  refine ⟨?_, ?_, ?_, ?_, ?_⟩
  · intro s h1 h2; simp only [route_step]; rw [if_pos h1, if_pos h2]
  · intro s h1 h2; simp only [route_step]; rw [if_pos h1, if_neg (by omega)]
  · intro s h1 h2
    simp only [route_step]
    rw [if_neg (by simp [h1]), if_pos h2]
  · intro s h1 h2
    simp only [route_step]
    rw [if_neg (by simp [h1]), if_neg h2]
  · intro c hreach hagg
    have h := greach_cap hreach
    rw [hagg] at h
    simpa [nodeCap] using h

/-- C8 witness: the four router rows at concrete states, and a concrete
reachable router evaluation (planner, coder, executor, review) observing the
cap. -/
theorem route_step_decision_and_cap_witness :
    route_step ⟨"reject", 5, 0, 1⟩ = "summarize" ∧
    route_step ⟨"reject", 2, 0, 1⟩ = "reflect" ∧
    route_step ⟨"approve", 3, 0, 2⟩ = "next_step" ∧
    route_step ⟨"approve", 3, 1, 2⟩ = "summarize" ∧
    ((Node.aggregator, (⟨"reject", 1, 0, 3⟩ : CrewState)) : Node × CrewState).2.iteration_count ≤ 5 := by
  have h := route_step_decision_and_cap
  have r1 : GReach initConfig (.coder, ⟨"reject", 0, 0, 3⟩) :=
    .tail .refl (.planner _ 3)
  have r2 : GReach initConfig (.executor, ⟨"reject", 1, 0, 3⟩) :=
    .tail r1 (.coder _)
  have r3 : GReach initConfig (.review, ⟨"reject", 1, 0, 3⟩) :=
    .tail r2 (.executor _)
  have r4 : GReach initConfig (.aggregator, ⟨"reject", 1, 0, 3⟩) :=
    .tail r3 (.review _ "reject")
  exact ⟨h.1 _ (by decide) (by decide), h.2.1 _ (by decide) (by decide),
    h.2.2.1 _ rfl (by decide), h.2.2.2.1 _ rfl (by decide),
    h.2.2.2.2 _ r4 rfl⟩

/-- A pattern longer than the string is not a prefix of it. -/
lemma not_isPrefixOf_of_lt {pat s : List Char} (h : s.length < pat.length) :
    pat.isPrefixOf s = false := by
  cases hb : pat.isPrefixOf s
  · rfl
  · have hle := (List.isPrefixOf_iff_prefix.mp hb).length_le
    omega

/-- `lastOcc` finds nothing in a string shorter than the pattern. -/
lemma lastOcc_none_of_short {pat : List Char} :
    ∀ {s : List Char}, s.length < pat.length → lastOcc pat s = none := by
  intro s
  induction s with
  | nil =>
    intro h
    simp only [lastOcc]
    rw [not_isPrefixOf_of_lt h]
    rfl
  | cons c rest ih =>
    intro h
    have h1 : rest.length < pat.length := by
      simp only [List.length_cons] at h; omega
    simp only [lastOcc]
    rw [ih h1, not_isPrefixOf_of_lt h]
    rfl

/-- `firstOcc` of a pattern that heads the string is `0`. -/
lemma firstOcc_of_head {pat s : List Char} (h : pat.isPrefixOf s = true) :
    firstOcc pat s = some 0 := by
  cases s with
  | nil => simp [firstOcc, h]
  | cons c rest => simp [firstOcc, h]

/-- The last occurrence of a non-empty pattern inside itself is at `0`. -/
lemma lastOcc_self {pat : List Char} (hne : pat ≠ []) : lastOcc pat pat = some 0 := by
  cases pat with
  | nil => exact absurd rfl hne
  | cons c p =>
    simp only [lastOcc]
    rw [lastOcc_none_of_short (by simp)]
    have htrue : (c :: p).isPrefixOf (c :: p) = true :=
      List.isPrefixOf_iff_prefix.mpr (List.prefix_refl _)
    rw [htrue]
    rfl

/-- The last occurrence of a non-empty pattern in `u ++ pat` is at
`u.length`: later start positions only see proper suffixes of the pattern. -/
lemma lastOcc_append_pat {pat : List Char} (hne : pat ≠ []) :
    ∀ u : List Char, lastOcc pat (u ++ pat) = some u.length := by
  intro u
  induction u with
  | nil => simpa using lastOcc_self hne
  | cons c u2 ih =>
    have ih2 : lastOcc pat (u2.append pat) = some u2.length := ih
    simp only [List.cons_append, lastOcc, ih2, List.length_cons]

/-- A prefix of `s` is still a prefix after appending a suffix. -/
lemma isPrefixOf_append_of {pat s : List Char} (v : List Char)
    (h : pat.isPrefixOf s = true) : pat.isPrefixOf (s ++ v) = true :=
  List.isPrefixOf_iff_prefix.mpr
    ((List.isPrefixOf_iff_prefix.mp h).trans (List.prefix_append s v))

/-- Whether `pat` heads a string at least as long as `pat` is unaffected by
appending a suffix. -/
lemma isPrefixOf_append_eq_of_le {pat s : List Char} (v : List Char)
    (h : pat.length ≤ s.length) :
    pat.isPrefixOf (s ++ v) = pat.isPrefixOf s := by
  cases hb : pat.isPrefixOf s
  · cases hb2 : pat.isPrefixOf (s ++ v)
    · rfl
    · exfalso
      obtain ⟨t, ht⟩ := List.isPrefixOf_iff_prefix.mp hb2
      have h1 : (s ++ v).take pat.length = pat := by
        rw [← ht, List.take_append_eq_append_take, Nat.sub_self, List.take_zero,
          List.append_nil, List.take_length]
      have h2 : (s ++ v).take pat.length = s.take pat.length := by
        rw [List.take_append_eq_append_take, Nat.sub_eq_zero_of_le h, List.take_zero,
          List.append_nil]
      have h3 : pat <+: s := by
        rw [h1.symm.trans h2]
        exact List.take_prefix _ _
      have h4 := List.isPrefixOf_iff_prefix.mpr h3
      rw [hb] at h4
      exact Bool.noConfusion h4
  · exact isPrefixOf_append_of v hb

/-- A `firstOcc` hit whose window lies inside `w` survives appending a
suffix. -/
lemma firstOcc_append_right {pat : List Char} :
    ∀ {w : List Char} {k : Nat}, firstOcc pat w = some k → k + pat.length ≤ w.length →
      ∀ v, firstOcc pat (w ++ v) = some k := by
  intro w
  induction w with
  | nil =>
    intro k h hk v
    simp only [firstOcc] at h
    by_cases hp : pat.isPrefixOf ([] : List Char) = true
    · rw [if_pos hp] at h
      have hpe : pat = [] := List.prefix_nil.mp (List.isPrefixOf_iff_prefix.mp hp)
      have hk0 : k = 0 := by cases h; rfl
      subst hpe hk0
      cases v <;> simp [firstOcc]
    · rw [if_neg hp] at h
      exact Option.noConfusion h
  | cons c w2 ih =>
    intro k h hk v
    simp only [firstOcc] at h
    by_cases hp : pat.isPrefixOf (c :: w2) = true
    · rw [if_pos hp] at h
      have hk0 : k = 0 := by cases h; rfl
      subst hk0
      have hp2 : pat.isPrefixOf (c :: (w2 ++ v)) = true := by
        rw [← List.cons_append]
        exact isPrefixOf_append_of v hp
      show firstOcc pat ((c :: w2) ++ v) = some 0
      rw [List.cons_append]
      simp only [firstOcc]
      rw [if_pos hp2]
    · rw [if_neg hp] at h
      cases hf : firstOcc pat w2 with
      | none =>
        rw [hf] at h
        simp at h
      | some k2 =>
        rw [hf] at h
        have hk2 : k = k2 + 1 := by simpa using h.symm
        have hlp : pat.length ≤ (c :: w2).length := by
          simp only [List.length_cons] at hk ⊢
          omega
        have hp2 : pat.isPrefixOf (c :: (w2 ++ v)) = false := by
          rw [← List.cons_append, isPrefixOf_append_eq_of_le v hlp]
          exact Bool.eq_false_iff.mpr hp
        have hside : k2 + pat.length ≤ w2.length := by
          simp only [List.length_cons] at hk
          omega
        show firstOcc pat ((c :: w2) ++ v) = some k
        rw [List.cons_append]
        simp only [firstOcc]
        rw [if_neg (by simp [hp2]), ih hf hside v]
        simp [hk2]

/-- Dropping a leading character cannot create an occurrence. -/
lemma contains_cons_false {pat s : List Char} {c : Char}
    (h : containsSub (c :: s) pat = false) : containsSub s pat = false := by
  unfold containsSub at h ⊢
  simp only [firstOcc] at h
  by_cases hp : pat.isPrefixOf (c :: s) = true
  · rw [if_pos hp] at h
    exact Bool.noConfusion h
  · rw [if_neg hp] at h
    cases hf : firstOcc pat s with
    | none => simp [hf]
    | some k =>
      rw [hf] at h
      simp at h

/-- When the pattern occurs nowhere strictly before the end, `firstOcc` on
`U ++ pat` is exactly the final position. -/
lemma firstOcc_append_pat_end {pat : List Char} (hne : pat ≠ []) :
    ∀ U : List Char,
      containsSub (U ++ pat.take (pat.length - 1)) pat = false →
      firstOcc pat (U ++ pat) = some U.length := by
  intro U
  induction U with
  | nil =>
    intro _
    rw [List.nil_append]
    exact firstOcc_of_head (List.isPrefixOf_iff_prefix.mpr (List.prefix_refl _))
  | cons c U2 ih =>
    intro h
    have hpat1 : 1 ≤ pat.length := by
      cases pat with
      | nil => exact absurd rfl hne
      | cons a l => simp
    have hnp : pat.isPrefixOf (c :: (U2 ++ pat)) = false := by
      cases hpp : pat.isPrefixOf (c :: (U2 ++ pat))
      · rfl
      · exfalso
        have hpre : pat <+: ((c :: U2) ++ pat) := by
          rw [List.cons_append]
          exact List.isPrefixOf_iff_prefix.mp hpp
        have hlen2 : pat.length ≤ (c :: U2).length + (pat.length - 1) := by
          simp only [List.length_cons]
          omega
        have hpre2 : pat <+: (c :: U2) ++ pat.take (pat.length - 1) := by
          rw [← List.take_append (pat.length - 1)]
          obtain ⟨t, ht⟩ := hpre
          rw [← ht, List.take_append_eq_append_take,
            List.take_of_length_le (by exact hlen2)]
          exact List.prefix_append _ _
        have hc : containsSub ((c :: U2) ++ pat.take (pat.length - 1)) pat = true := by
          unfold containsSub
          rw [firstOcc_of_head (List.isPrefixOf_iff_prefix.mpr hpre2)]
          rfl
        rw [h] at hc
        exact Bool.noConfusion hc
    have h2 : containsSub (U2 ++ pat.take (pat.length - 1)) pat = false := by
      apply contains_cons_false
      rw [List.cons_append] at h
      exact h
    rw [List.cons_append]
    simp only [firstOcc]
    rw [if_neg (by simp [hnp]), ih h2]
    simp

/-- `str.strip()` is the identity on a string with non-whitespace ends. -/
lemma pyStrip_noop {x y : Char} (mid : List Char)
    (hx : isPySpace x = false) (hy : isPySpace y = false) :
    pyStrip (x :: (mid ++ [y])) = x :: (mid ++ [y]) := by
  unfold pyStrip
  rw [List.dropWhile_cons, hx]
  simp only [Bool.false_eq_true, if_false]
  rw [List.reverse_cons, List.reverse_append, List.reverse_singleton,
    List.singleton_append, List.cons_append, List.dropWhile_cons, hy]
  simp only [Bool.false_eq_true, if_false]
  rw [List.reverse_cons, List.reverse_append, List.reverse_reverse,
    List.reverse_singleton, List.singleton_append, List.cons_append]

/-- `regex_tag_value` at known open/close hit positions. -/
lemma regex_tag_value_eq {s : List Char} {tag : String} {i j : Nat}
    (ho : firstOcc (lowerL (("<" ++ tag ++ ">").data)) (lowerL s) = some i)
    (hc : firstOcc (lowerL (("</" ++ tag ++ ">").data))
        (lowerL (s.drop (i + ("<" ++ tag ++ ">").data.length))) = some j) :
    regex_tag_value s tag
      = some (pyStrip ((s.drop (i + ("<" ++ tag ++ ">").data.length)).take j)) := by
  unfold regex_tag_value
  dsimp only
  rw [ho]
  dsimp only
  rw [hc]

/-- `extract_tag_content` at known first/last marker positions. -/
lemma extract_tag_content_eq (xml : List Char) (tag : String) (i j : Nat)
    (hf : firstOcc (("<" ++ tag ++ ">").data) xml = some i)
    (hl : lastOcc (("</" ++ tag ++ ">").data) xml = some j)
    (hij : i < j) :
    extract_tag_content xml tag
      = finish_content (slice xml (i + ("<" ++ tag ++ ">").data.length) j) := by
  simp only [extract_tag_content, hf, hl]
  rw [if_pos hij]

/-- Any content wrapped in outermost `<content>` markers is recovered
exactly (then CDATA-stripped and trimmed), however many tag-shaped
substrings it contains. -/
lemma extract_content_outermost (c0 : List Char) :
    extract_tag_content (("<content>").data ++ c0 ++ ("</content>").data) "content"
      = finish_content c0 := by
  have hopen : (("<" ++ "content" ++ ">").data) = ("<content>").data := rfl
  have hclose : (("</" ++ "content" ++ ">").data) = ("</content>").data := rfl
  have hf : firstOcc (("<" ++ "content" ++ ">").data)
      (("<content>").data ++ c0 ++ ("</content>").data) = some 0 := by
    apply firstOcc_of_head
    apply List.isPrefixOf_iff_prefix.mpr
    rw [hopen, List.append_assoc]
    exact List.prefix_append _ _
  have hlen : (("<content>").data ++ c0).length = 9 + c0.length := by
    rw [List.length_append]; rfl
  have hl : lastOcc (("</" ++ "content" ++ ">").data)
      (("<content>").data ++ c0 ++ ("</content>").data) = some (9 + c0.length) := by
    rw [hclose]
    have hoc := @lastOcc_append_pat (("</content>").data) (by decide)
      (("<content>").data ++ c0)
    rw [hlen] at hoc
    exact hoc
  have h := extract_tag_content_eq
    (("<content>").data ++ c0 ++ ("</content>").data) "content" 0 (9 + c0.length)
    hf hl (by omega)
  rw [h]
  have hslice : slice (("<content>").data ++ c0 ++ ("</content>").data)
      (0 + (("<" ++ "content" ++ ">").data).length) (9 + c0.length) = c0 := by
    show slice (("<content>").data ++ c0 ++ ("</content>").data) 9 (9 + c0.length) = c0
    simp only [slice]
    rw [List.take_left' hlen,
      List.drop_left' (show (("<content>").data).length = 9 by rfl)]
  rw [hslice]

/-- A parsed `write_to_file` call exposes the whole extraction pipeline. -/
lemma parse_write_elim {resp p c : List Char}
    (h : parse_tool_call resp = some (.write_to_file p c)) :
    ∃ inner px, regex_tag_value resp "tool_code" = some inner ∧
      regex_tag_value inner "tool_name" = some (("write_to_file").data) ∧
      regex_tag_value inner "parameters" = some px ∧
      regex_tag_value px "path" = some p ∧
      c = extract_tag_content px "content" := by
  cases h1 : regex_tag_value resp "tool_code" with
  | none =>
    simp only [parse_tool_call, h1] at h
    exact Option.noConfusion h
  | some inner =>
  cases h2 : regex_tag_value inner "tool_name" with
  | none =>
    simp only [parse_tool_call, h1, h2] at h
    exact Option.noConfusion h
  | some tn =>
  cases h3 : regex_tag_value inner "parameters" with
  | none =>
    simp only [parse_tool_call, h1, h2, h3] at h
    exact Option.noConfusion h
  | some px =>
  simp only [parse_tool_call, h1, h2, h3] at h
  by_cases ht1 : tn = ("write_to_file").data
  · rw [if_pos ht1] at h
    cases h4 : regex_tag_value px "path" with
    | none =>
      simp only [h4] at h
      exact Option.noConfusion h
    | some p2 =>
      simp only [h4, Option.some.injEq, ToolCall.write_to_file.injEq] at h
      obtain ⟨hp, hc⟩ := h
      subst hp
      exact ⟨inner, px, rfl, ht1 ▸ h2, h3, h4, hc.symm⟩
  · rw [if_neg ht1] at h
    by_cases ht2 : tn = ("apply_diff").data
    · rw [if_pos ht2] at h
      cases h4 : regex_tag_value px "path" with
      | none =>
        simp only [h4] at h
        exact Option.noConfusion h
      | some p2 =>
        simp only [h4, Option.some.injEq] at h
        exact ToolCall.noConfusion h
    · rw [if_neg ht2] at h
      by_cases ht3 : tn = ("execute_command").data
      · rw [if_pos ht3] at h
        cases h4 : regex_tag_value px "command" with
        | none =>
          simp only [h4] at h
          exact Option.noConfusion h
        | some cmd =>
          simp only [h4, Option.some.injEq] at h
          exact ToolCall.noConfusion h
      · rw [if_neg ht3] at h
        exact Option.noConfusion h

/-- A parsed `apply_diff` call exposes the whole extraction pipeline. -/
lemma parse_diff_elim {resp p sb rb : List Char}
    (h : parse_tool_call resp = some (.apply_diff p sb rb)) :
    ∃ inner px, regex_tag_value resp "tool_code" = some inner ∧
      regex_tag_value inner "tool_name" = some (("apply_diff").data) ∧
      regex_tag_value inner "parameters" = some px ∧
      regex_tag_value px "path" = some p ∧
      sb = extract_tag_content px "search_block" ∧
      rb = extract_tag_content px "replace_block" := by
  cases h1 : regex_tag_value resp "tool_code" with
  | none =>
    simp only [parse_tool_call, h1] at h
    exact Option.noConfusion h
  | some inner =>
  cases h2 : regex_tag_value inner "tool_name" with
  | none =>
    simp only [parse_tool_call, h1, h2] at h
    exact Option.noConfusion h
  | some tn =>
  cases h3 : regex_tag_value inner "parameters" with
  | none =>
    simp only [parse_tool_call, h1, h2, h3] at h
    exact Option.noConfusion h
  | some px =>
  simp only [parse_tool_call, h1, h2, h3] at h
  by_cases ht1 : tn = ("write_to_file").data
  · rw [if_pos ht1] at h
    cases h4 : regex_tag_value px "path" with
    | none =>
      simp only [h4] at h
      exact Option.noConfusion h
    | some p2 =>
      simp only [h4, Option.some.injEq] at h
      exact ToolCall.noConfusion h
  · rw [if_neg ht1] at h
    by_cases ht2 : tn = ("apply_diff").data
    · rw [if_pos ht2] at h
      cases h4 : regex_tag_value px "path" with
      | none =>
        simp only [h4] at h
        exact Option.noConfusion h
      | some p2 =>
        simp only [h4, Option.some.injEq, ToolCall.apply_diff.injEq] at h
        obtain ⟨hp, hs, hr⟩ := h
        subst hp
        exact ⟨inner, px, rfl, ht2 ▸ h2, h3, h4, hs.symm, hr.symm⟩
    · rw [if_neg ht2] at h
      by_cases ht3 : tn = ("execute_command").data
      · rw [if_pos ht3] at h
        cases h4 : regex_tag_value px "command" with
        | none =>
          simp only [h4] at h
          exact Option.noConfusion h
        | some cmd =>
          simp only [h4, Option.some.injEq] at h
          exact ToolCall.noConfusion h
      · rw [if_neg ht3] at h
        exact Option.noConfusion h

/-- A parsed `execute_command` call exposes the whole extraction pipeline. -/
lemma parse_exec_elim {resp cmd : List Char}
    (h : parse_tool_call resp = some (.execute_command cmd)) :
    ∃ inner px, regex_tag_value resp "tool_code" = some inner ∧
      regex_tag_value inner "tool_name" = some (("execute_command").data) ∧
      regex_tag_value inner "parameters" = some px ∧
      regex_tag_value px "command" = some cmd := by
  cases h1 : regex_tag_value resp "tool_code" with
  | none =>
    simp only [parse_tool_call, h1] at h
    exact Option.noConfusion h
  | some inner =>
  cases h2 : regex_tag_value inner "tool_name" with
  | none =>
    simp only [parse_tool_call, h1, h2] at h
    exact Option.noConfusion h
  | some tn =>
  cases h3 : regex_tag_value inner "parameters" with
  | none =>
    simp only [parse_tool_call, h1, h2, h3] at h
    exact Option.noConfusion h
  | some px =>
  simp only [parse_tool_call, h1, h2, h3] at h
  by_cases ht1 : tn = ("write_to_file").data
  · rw [if_pos ht1] at h
    cases h4 : regex_tag_value px "path" with
    | none =>
      simp only [h4] at h
      exact Option.noConfusion h
    | some p2 =>
      simp only [h4, Option.some.injEq] at h
      exact ToolCall.noConfusion h
  · rw [if_neg ht1] at h
    by_cases ht2 : tn = ("apply_diff").data
    · rw [if_pos ht2] at h
      cases h4 : regex_tag_value px "path" with
      | none =>
        simp only [h4] at h
        exact Option.noConfusion h
      | some p2 =>
        simp only [h4, Option.some.injEq] at h
        exact ToolCall.noConfusion h
    · rw [if_neg ht2] at h
      by_cases ht3 : tn = ("execute_command").data
      · rw [if_pos ht3] at h
        cases h4 : regex_tag_value px "command" with
        | none =>
          simp only [h4] at h
          exact Option.noConfusion h
        | some cmd2 =>
          simp only [h4, Option.some.injEq, ToolCall.execute_command.injEq] at h
          subst h
          exact ⟨inner, px, rfl, ht3 ▸ h2, h3, h4⟩
      · rw [if_neg ht3] at h
        exact Option.noConfusion h

lemma lowerL_append (a b : List Char) : lowerL (a ++ b) = lowerL a ++ lowerL b :=
  List.map_append _ a b

/-- Step 1 of the wrapped `write_to_file` call: the `tool_code` wrapper is
sliced at the first `</tool_code>`, which — when the content avoids that tag
— is the final one. -/
lemma rtv_tool_code_wrap (c0 : List Char)
    (H1 : containsSub
        ((("<tool_name>write_to_file</tool_name><parameters><path>a.py</path><content>").data)
          ++ lowerL c0 ++ (("</content></parameters></tool_code").data))
        (("</tool_code>").data) = false) :
    regex_tag_value
        ((("<tool_code><tool_name>write_to_file</tool_name><parameters><path>a.py</path><content>").data)
          ++ c0 ++ (("</content></parameters></tool_code>").data)) "tool_code"
      = some ((("<tool_name>write_to_file</tool_name><parameters><path>a.py</path><content>").data)
          ++ c0 ++ (("</content></parameters>").data)) := by
  have ho : firstOcc (lowerL (("<" ++ "tool_code" ++ ">").data))
      (lowerL ((("<tool_code><tool_name>write_to_file</tool_name><parameters><path>a.py</path><content>").data)
        ++ c0 ++ (("</content></parameters></tool_code>").data))) = some 0 := by
    rw [List.append_assoc, lowerL_append]
    exact firstOcc_of_head (isPrefixOf_append_of _ (by decide))
  have hdrop : (((("<tool_code><tool_name>write_to_file</tool_name><parameters><path>a.py</path><content>").data)
        ++ c0 ++ (("</content></parameters></tool_code>").data))).drop
        (0 + (("<" ++ "tool_code" ++ ">").data).length)
      = (("<tool_name>write_to_file</tool_name><parameters><path>a.py</path><content>").data)
        ++ (c0 ++ (("</content></parameters></tool_code>").data)) := by
    rw [List.append_assoc,
      show (("<tool_code><tool_name>write_to_file</tool_name><parameters><path>a.py</path><content>").data)
        = ("<tool_code>").data
          ++ ("<tool_name>write_to_file</tool_name><parameters><path>a.py</path><content>").data from rfl,
      List.append_assoc]
    exact List.drop_left' rfl
  have hc : firstOcc (lowerL (("</" ++ "tool_code" ++ ">").data))
      (lowerL (((("<tool_code><tool_name>write_to_file</tool_name><parameters><path>a.py</path><content>").data)
        ++ c0 ++ (("</content></parameters></tool_code>").data)).drop
        (0 + (("<" ++ "tool_code" ++ ">").data).length))) = some (97 + c0.length) := by
    rw [show lowerL (("</" ++ "tool_code" ++ ">").data) = ("</tool_code>").data from by decide,
      hdrop, lowerL_append, lowerL_append,
      show lowerL (("<tool_name>write_to_file</tool_name><parameters><path>a.py</path><content>").data)
        = ("<tool_name>write_to_file</tool_name><parameters><path>a.py</path><content>").data from by decide,
      show lowerL (("</content></parameters></tool_code>").data)
        = ("</content></parameters>").data ++ ("</tool_code>").data from by decide]
    have hre : ((("<tool_name>write_to_file</tool_name><parameters><path>a.py</path><content>").data)
          ++ (lowerL c0 ++ ("</content></parameters>").data)) ++ ("</tool_code>").data
        = (("<tool_name>write_to_file</tool_name><parameters><path>a.py</path><content>").data)
          ++ (lowerL c0 ++ ((("</content></parameters>").data) ++ ("</tool_code>").data)) := by
      simp [List.append_assoc]
    rw [← hre]
    have hbridge : ((("<tool_name>write_to_file</tool_name><parameters><path>a.py</path><content>").data)
          ++ (lowerL c0 ++ ("</content></parameters>").data))
          ++ ((("</tool_code>").data).take ((("</tool_code>").data).length - 1))
        = (("<tool_name>write_to_file</tool_name><parameters><path>a.py</path><content>").data)
          ++ lowerL c0 ++ (("</content></parameters></tool_code").data) := by
      rw [show (("</tool_code>").data).take ((("</tool_code>").data).length - 1)
          = ("</tool_code").data from rfl,
        show (("</content></parameters></tool_code").data)
          = ("</content></parameters>").data ++ ("</tool_code").data from rfl]
      simp [List.append_assoc]
    have hend := @firstOcc_append_pat_end (("</tool_code>").data) (by decide)
      ((("<tool_name>write_to_file</tool_name><parameters><path>a.py</path><content>").data)
        ++ (lowerL c0 ++ ("</content></parameters>").data))
      (by rw [hbridge]; exact H1)
    rw [hend]
    have hUlen : (((("<tool_name>write_to_file</tool_name><parameters><path>a.py</path><content>").data)
        ++ (lowerL c0 ++ ("</content></parameters>").data))).length = 97 + c0.length := by
      simp [lowerL]
      omega
    rw [hUlen]
  have hval : pyStrip (((((("<tool_code><tool_name>write_to_file</tool_name><parameters><path>a.py</path><content>").data)
        ++ c0 ++ (("</content></parameters></tool_code>").data))).drop
        (0 + (("<" ++ "tool_code" ++ ">").data).length)).take (97 + c0.length))
      = (("<tool_name>write_to_file</tool_name><parameters><path>a.py</path><content>").data)
        ++ c0 ++ (("</content></parameters>").data) := by
    rw [hdrop]
    have hre2 : (("<tool_name>write_to_file</tool_name><parameters><path>a.py</path><content>").data)
          ++ (c0 ++ (("</content></parameters></tool_code>").data))
        = ((("<tool_name>write_to_file</tool_name><parameters><path>a.py</path><content>").data)
          ++ c0 ++ (("</content></parameters>").data)) ++ ("</tool_code>").data := by
      rw [show (("</content></parameters></tool_code>").data)
        = ("</content></parameters>").data ++ ("</tool_code>").data from rfl]
      simp [List.append_assoc]
    rw [hre2, List.take_left' (by simp; omega)]
    have h1 : (("<tool_name>write_to_file</tool_name><parameters><path>a.py</path><content>").data)
          ++ c0 ++ (("</content></parameters>").data)
        = '<' :: (((("tool_name>write_to_file</tool_name><parameters><path>a.py</path><content>").data)
          ++ c0 ++ (("</content></parameters").data)) ++ ['>']) := by
      simp [List.append_assoc]
    rw [h1]
    exact pyStrip_noop _ (by decide) (by decide)
  rw [regex_tag_value_eq ho hc, hval]

/-- Step 2: the `tool_name` block always yields `write_to_file`, whatever
the content. -/
lemma rtv_tool_name_wrap (c0 : List Char) :
    regex_tag_value
        ((("<tool_name>write_to_file</tool_name><parameters><path>a.py</path><content>").data)
          ++ c0 ++ (("</content></parameters>").data)) "tool_name"
      = some (("write_to_file").data) := by
  have ho : firstOcc (lowerL (("<" ++ "tool_name" ++ ">").data))
      (lowerL ((("<tool_name>write_to_file</tool_name><parameters><path>a.py</path><content>").data)
        ++ c0 ++ (("</content></parameters>").data))) = some 0 := by
    rw [List.append_assoc, lowerL_append]
    exact firstOcc_of_head (isPrefixOf_append_of _ (by decide))
  have hdrop : (((("<tool_name>write_to_file</tool_name><parameters><path>a.py</path><content>").data)
        ++ c0 ++ (("</content></parameters>").data))).drop
        (0 + (("<" ++ "tool_name" ++ ">").data).length)
      = (("write_to_file</tool_name><parameters><path>a.py</path><content>").data)
        ++ (c0 ++ (("</content></parameters>").data)) := by
    rw [List.append_assoc,
      show (("<tool_name>write_to_file</tool_name><parameters><path>a.py</path><content>").data)
        = ("<tool_name>").data
          ++ ("write_to_file</tool_name><parameters><path>a.py</path><content>").data from rfl,
      List.append_assoc]
    exact List.drop_left' rfl
  have hc : firstOcc (lowerL (("</" ++ "tool_name" ++ ">").data))
      (lowerL (((("<tool_name>write_to_file</tool_name><parameters><path>a.py</path><content>").data)
        ++ c0 ++ (("</content></parameters>").data)).drop
        (0 + (("<" ++ "tool_name" ++ ">").data).length))) = some 13 := by
    rw [hdrop, lowerL_append]
    exact firstOcc_append_right (by decide) (by decide) _
  have hval : pyStrip (((((("<tool_name>write_to_file</tool_name><parameters><path>a.py</path><content>").data)
        ++ c0 ++ (("</content></parameters>").data))).drop
        (0 + (("<" ++ "tool_name" ++ ">").data).length)).take 13)
      = ("write_to_file").data := by
    rw [hdrop, List.take_append_eq_append_take,
      show 13 - ((("write_to_file</tool_name><parameters><path>a.py</path><content>").data)).length = 0
        from rfl,
      List.take_zero, List.append_nil]
    decide
  rw [regex_tag_value_eq ho hc, hval]

/-- Step 3: the `parameters` block is sliced at the first `</parameters>` —
the final one when the content avoids that tag. -/
lemma rtv_parameters_wrap (c0 : List Char)
    (H2 : containsSub ((("<path>a.py</path><content>").data)
        ++ lowerL c0 ++ (("</content></parameters").data)) (("</parameters>").data) = false) :
    regex_tag_value
        ((("<tool_name>write_to_file</tool_name><parameters><path>a.py</path><content>").data)
          ++ c0 ++ (("</content></parameters>").data)) "parameters"
      = some ((("<path>a.py</path><content>").data) ++ c0 ++ (("</content>").data)) := by
  have ho : firstOcc (lowerL (("<" ++ "parameters" ++ ">").data))
      (lowerL ((("<tool_name>write_to_file</tool_name><parameters><path>a.py</path><content>").data)
        ++ c0 ++ (("</content></parameters>").data))) = some 36 := by
    rw [List.append_assoc, lowerL_append]
    exact firstOcc_append_right (by decide) (by decide) _
  have hdrop : (((("<tool_name>write_to_file</tool_name><parameters><path>a.py</path><content>").data)
        ++ c0 ++ (("</content></parameters>").data))).drop
        (36 + (("<" ++ "parameters" ++ ">").data).length)
      = (("<path>a.py</path><content>").data) ++ (c0 ++ (("</content></parameters>").data)) := by
    rw [List.append_assoc,
      show (("<tool_name>write_to_file</tool_name><parameters><path>a.py</path><content>").data)
        = ("<tool_name>write_to_file</tool_name><parameters>").data
          ++ ("<path>a.py</path><content>").data from rfl,
      List.append_assoc]
    exact List.drop_left' rfl
  have hc : firstOcc (lowerL (("</" ++ "parameters" ++ ">").data))
      (lowerL (((("<tool_name>write_to_file</tool_name><parameters><path>a.py</path><content>").data)
        ++ c0 ++ (("</content></parameters>").data)).drop
        (36 + (("<" ++ "parameters" ++ ">").data).length))) = some (36 + c0.length) := by
    rw [show lowerL (("</" ++ "parameters" ++ ">").data) = ("</parameters>").data from by decide,
      hdrop, lowerL_append,
      show lowerL (("<path>a.py</path><content>").data)
        = ("<path>a.py</path><content>").data from by decide,
      lowerL_append,
      show lowerL (("</content></parameters>").data)
        = ("</content>").data ++ ("</parameters>").data from by decide]
    have hre : ((("<path>a.py</path><content>").data)
          ++ (lowerL c0 ++ ("</content>").data)) ++ ("</parameters>").data
        = (("<path>a.py</path><content>").data)
          ++ (lowerL c0 ++ ((("</content>").data) ++ ("</parameters>").data)) := by
      simp [List.append_assoc]
    rw [← hre]
    have hbridge : ((("<path>a.py</path><content>").data)
          ++ (lowerL c0 ++ ("</content>").data))
          ++ ((("</parameters>").data).take ((("</parameters>").data).length - 1))
        = (("<path>a.py</path><content>").data)
          ++ lowerL c0 ++ (("</content></parameters").data) := by
      rw [show (("</parameters>").data).take ((("</parameters>").data).length - 1)
          = ("</parameters").data from rfl,
        show (("</content></parameters").data)
          = ("</content>").data ++ ("</parameters").data from rfl]
      simp [List.append_assoc]
    have hend := @firstOcc_append_pat_end (("</parameters>").data) (by decide)
      ((("<path>a.py</path><content>").data) ++ (lowerL c0 ++ ("</content>").data))
      (by rw [hbridge]; exact H2)
    rw [hend]
    have hUlen : (((("<path>a.py</path><content>").data)
        ++ (lowerL c0 ++ ("</content>").data))).length = 36 + c0.length := by
      simp [lowerL]
      omega
    rw [hUlen]
  have hval : pyStrip (((((("<tool_name>write_to_file</tool_name><parameters><path>a.py</path><content>").data)
        ++ c0 ++ (("</content></parameters>").data))).drop
        (36 + (("<" ++ "parameters" ++ ">").data).length)).take (36 + c0.length))
      = (("<path>a.py</path><content>").data) ++ c0 ++ (("</content>").data) := by
    rw [hdrop]
    have hre2 : (("<path>a.py</path><content>").data) ++ (c0 ++ (("</content></parameters>").data))
        = ((("<path>a.py</path><content>").data) ++ c0 ++ (("</content>").data))
          ++ ("</parameters>").data := by
      rw [show (("</content></parameters>").data)
        = ("</content>").data ++ ("</parameters>").data from rfl]
      simp [List.append_assoc]
    rw [hre2, List.take_left' (by simp; omega)]
    have h1 : (("<path>a.py</path><content>").data) ++ c0 ++ (("</content>").data)
        = '<' :: (((("path>a.py</path><content>").data) ++ c0 ++ (("</content").data)) ++ ['>']) := by
      simp [List.append_assoc]
    rw [h1]
    exact pyStrip_noop _ (by decide) (by decide)
  rw [regex_tag_value_eq ho hc, hval]

/-- Step 4: the `path` parameter is always recovered, whatever the content. -/
lemma rtv_path_wrap (c0 : List Char) :
    regex_tag_value ((("<path>a.py</path><content>").data) ++ c0 ++ (("</content>").data)) "path"
      = some (("a.py").data) := by
  have ho : firstOcc (lowerL (("<" ++ "path" ++ ">").data))
      (lowerL ((("<path>a.py</path><content>").data) ++ c0 ++ (("</content>").data))) = some 0 := by
    rw [List.append_assoc, lowerL_append]
    exact firstOcc_of_head (isPrefixOf_append_of _ (by decide))
  have hdrop : ((("<path>a.py</path><content>").data) ++ c0 ++ (("</content>").data)).drop
      (0 + (("<" ++ "path" ++ ">").data).length)
      = (("a.py</path><content>").data) ++ (c0 ++ (("</content>").data)) := by
    rw [List.append_assoc,
      show (("<path>a.py</path><content>").data)
        = ("<path>").data ++ ("a.py</path><content>").data from rfl,
      List.append_assoc]
    exact List.drop_left' rfl
  have hc : firstOcc (lowerL (("</" ++ "path" ++ ">").data))
      (lowerL (((("<path>a.py</path><content>").data) ++ c0 ++ (("</content>").data)).drop
        (0 + (("<" ++ "path" ++ ">").data).length))) = some 4 := by
    rw [hdrop, lowerL_append]
    exact firstOcc_append_right (by decide) (by decide) _
  have hval : pyStrip ((((("<path>a.py</path><content>").data) ++ c0 ++ (("</content>").data)).drop
      (0 + (("<" ++ "path" ++ ">").data).length)).take 4) = ("a.py").data := by
    rw [hdrop, List.take_append_eq_append_take,
      show 4 - ((("a.py</path><content>").data)).length = 0 from rfl,
      List.take_zero, List.append_nil]
    decide
  rw [regex_tag_value_eq ho hc, hval]

/-- Step 5: `_extract_tag_content` recovers the content exactly — the first
`<content>` is the real opening marker and the last `</content>` the real
closing one, whatever tag-shaped text the content embeds. -/
lemma extract_content_wrap (c0 : List Char) :
    extract_tag_content ((("<path>a.py</path><content>").data) ++ c0 ++ (("</content>").data))
        "content"
      = finish_content c0 := by
  have hf : firstOcc (("<" ++ "content" ++ ">").data)
      ((("<path>a.py</path><content>").data) ++ c0 ++ (("</content>").data)) = some 17 := by
    rw [List.append_assoc]
    exact firstOcc_append_right (by decide) (by decide) _
  have hl : lastOcc (("</" ++ "content" ++ ">").data)
      ((("<path>a.py</path><content>").data) ++ c0 ++ (("</content>").data))
      = some (26 + c0.length) := by
    rw [show (("</" ++ "content" ++ ">").data) = ("</content>").data from rfl]
    have h := @lastOcc_append_pat (("</content>").data) (by decide)
      ((("<path>a.py</path><content>").data) ++ c0)
    rw [show (((("<path>a.py</path><content>").data) ++ c0)).length = 26 + c0.length
      from by simp; omega] at h
    exact h
  have h := extract_tag_content_eq
    ((("<path>a.py</path><content>").data) ++ c0 ++ (("</content>").data)) "content"
    17 (26 + c0.length) hf hl (by omega)
  rw [h]
  have hslice : slice ((("<path>a.py</path><content>").data) ++ c0 ++ (("</content>").data))
      (17 + (("<" ++ "content" ++ ">").data).length) (26 + c0.length) = c0 := by
    show slice ((("<path>a.py</path><content>").data) ++ c0 ++ (("</content>").data))
      26 (26 + c0.length) = c0
    simp only [slice]
    rw [List.take_left' (by simp; omega), List.drop_left' (by decide)]
  rw [hslice]

set_option maxRecDepth 100000 in
/-- C1 counterexample: the `<parameters>` block is cut at the *first*
`</parameters>` by the non-greedy wrapper regex, so a `write_to_file` call
whose content contains `</parameters>` (a substring resembling an XML close
tag) parses to content `""`, not to the exact slice between the outermost
`<content>` markers, which is `A</parameters>B`. -/
theorem write_to_file_paramclose_cex :
    parse_tool_call
        ((("<tool_code><tool_name>write_to_file</tool_name><parameters><path>a.py</path><content>A</parameters>B</content></parameters></tool_code>").data))
      = some (.write_to_file (("a.py").data) []) ∧
    extract_tag_content
        ((("<tool_code><tool_name>write_to_file</tool_name><parameters><path>a.py</path><content>A</parameters>B</content></parameters></tool_code>").data))
        "content"
      = ("A</parameters>B").data ∧
    ("A</parameters>B").data ≠ ([] : List Char) := by
  refine ⟨by decide, by decide, by decide⟩

/-- C1 amended: `parse_tool_call` extracts the content of a `write_to_file`
call by first-`<content>`/last-`</content>` slicing of the parameters block,
and the wrapper blocks themselves are cut at the first `</tool_code>` /
`</parameters>`.  Hence for every content — however many tag-resembling
substrings such as `</content>` or `</path>` it embeds — that has no
case-insensitive occurrence of `</tool_code>` or `</parameters>` (including
across its boundaries with the wrapper), the parsed content is exactly the
slice between the outermost `<content>` markers, trimmed, with an optional
CDATA wrapper stripped. -/
theorem write_to_file_content_outermost_slice (c0 : List Char)
    (H1 : containsSub
        ((("<tool_name>write_to_file</tool_name><parameters><path>a.py</path><content>").data)
          ++ lowerL c0 ++ (("</content></parameters></tool_code").data))
        (("</tool_code>").data) = false)
    (H2 : containsSub ((("<path>a.py</path><content>").data)
        ++ lowerL c0 ++ (("</content></parameters").data)) (("</parameters>").data) = false) :
    parse_tool_call
        ((("<tool_code><tool_name>write_to_file</tool_name><parameters><path>a.py</path><content>").data)
          ++ c0 ++ (("</content></parameters></tool_code>").data))
      = some (.write_to_file (("a.py").data) (finish_content c0)) := by
  have s1 := rtv_tool_code_wrap c0 H1
  have s2 := rtv_tool_name_wrap c0
  have s3 := rtv_parameters_wrap c0 H2
  have s4 := rtv_path_wrap c0
  have s5 := extract_content_wrap c0
  unfold parse_tool_call
  rw [s1]
  dsimp only
  rw [s2]
  dsimp only
  rw [s3]
  dsimp only
  rw [if_pos rfl, s4]
  dsimp only
  rw [s5]

set_option maxRecDepth 100000 in
/-- C1 amended, witness: a concrete call whose content embeds a
`</content>`-shaped substring parses to exactly that content (the last
`</content>` marker wins), with the hypotheses discharged by computation. -/
theorem write_to_file_content_outermost_slice_witness :
    parse_tool_call
        ((("<tool_code><tool_name>write_to_file</tool_name><parameters><path>a.py</path><content>if x: pass # </content></content></parameters></tool_code>").data))
      = some (.write_to_file (("a.py").data)
          (finish_content (("if x: pass # </content>").data))) ∧
    finish_content (("if x: pass # </content>").data) = ("if x: pass # </content>").data := by
  constructor
  · have h := write_to_file_content_outermost_slice (("if x: pass # </content>").data)
      (by decide) (by decide)
    rw [show (("<tool_code><tool_name>write_to_file</tool_name><parameters><path>a.py</path><content>if x: pass # </content></content></parameters></tool_code>").data)
        = ((("<tool_code><tool_name>write_to_file</tool_name><parameters><path>a.py</path><content>").data)
          ++ (("if x: pass # </content>").data) ++ (("</content></parameters></tool_code>").data))
        from by decide]
    exact h
  · decide

set_option maxRecDepth 100000 in
/-- C9 counterexample: a `write_to_file` call with no `<content>` tag at all
is *not* rejected — `parse_tool_call` returns the call with `content = ""`,
refuting "returns none whenever any required parameter is missing". -/
theorem parse_tool_call_missing_content_cex :
    parse_tool_call
        (("<tool_code><tool_name>write_to_file</tool_name><parameters><path>a.py</path></parameters></tool_code>").data)
      = some (.write_to_file (("a.py").data) []) ∧
    parse_tool_call
        (("<tool_code><tool_name>write_to_file</tool_name><parameters><path>a.py</path></parameters></tool_code>").data)
      ≠ none := by
  have hs : parse_tool_call
      (("<tool_code><tool_name>write_to_file</tool_name><parameters><path>a.py</path></parameters></tool_code>").data)
      = some (.write_to_file (("a.py").data) []) := by decide
  refine ⟨hs, ?_⟩
  rw [hs]
  exact fun hn => Option.noConfusion hn

/-- C9 amended: `parse_tool_call` returns `none` when the wrapper, tool name
or parameter block is missing, when the tool is unrecognised, and when the
*anchor* parameter is missing (`path` for `write_to_file` and `apply_diff`,
`command` for `execute_command`); a returned call always carries its anchor
parameter, but `content`, `search_block` and `replace_block` are *not*
required — when their tags are missing they default to the empty string. -/
theorem parse_tool_call_required_params :
    (∀ resp : List Char, regex_tag_value resp "tool_code" = none →
        parse_tool_call resp = none) ∧
    (∀ resp inner : List Char, regex_tag_value resp "tool_code" = some inner →
        regex_tag_value inner "tool_name" = none → parse_tool_call resp = none) ∧
    (∀ resp inner tn : List Char, regex_tag_value resp "tool_code" = some inner →
        regex_tag_value inner "tool_name" = some tn →
        regex_tag_value inner "parameters" = none → parse_tool_call resp = none) ∧
    (∀ resp inner px : List Char, regex_tag_value resp "tool_code" = some inner →
        regex_tag_value inner "tool_name" = some (("write_to_file").data) →
        regex_tag_value inner "parameters" = some px →
        regex_tag_value px "path" = none → parse_tool_call resp = none) ∧
    (∀ resp inner px : List Char, regex_tag_value resp "tool_code" = some inner →
        regex_tag_value inner "tool_name" = some (("apply_diff").data) →
        regex_tag_value inner "parameters" = some px →
        regex_tag_value px "path" = none → parse_tool_call resp = none) ∧
    (∀ resp inner px : List Char, regex_tag_value resp "tool_code" = some inner →
        regex_tag_value inner "tool_name" = some (("execute_command").data) →
        regex_tag_value inner "parameters" = some px →
        regex_tag_value px "command" = none → parse_tool_call resp = none) ∧
    (∀ resp inner tn px : List Char, regex_tag_value resp "tool_code" = some inner →
        regex_tag_value inner "tool_name" = some tn →
        regex_tag_value inner "parameters" = some px →
        tn ≠ ("write_to_file").data → tn ≠ ("apply_diff").data →
        tn ≠ ("execute_command").data → parse_tool_call resp = none) ∧
    (∀ resp p c : List Char, parse_tool_call resp = some (.write_to_file p c) →
        ∃ inner px, regex_tag_value resp "tool_code" = some inner ∧
          regex_tag_value inner "tool_name" = some (("write_to_file").data) ∧
          regex_tag_value inner "parameters" = some px ∧
          regex_tag_value px "path" = some p ∧
          c = extract_tag_content px "content") ∧
    (∀ resp p sb rb : List Char, parse_tool_call resp = some (.apply_diff p sb rb) →
        ∃ inner px, regex_tag_value resp "tool_code" = some inner ∧
          regex_tag_value inner "tool_name" = some (("apply_diff").data) ∧
          regex_tag_value inner "parameters" = some px ∧
          regex_tag_value px "path" = some p ∧
          sb = extract_tag_content px "search_block" ∧
          rb = extract_tag_content px "replace_block") ∧
    (∀ resp cmd : List Char, parse_tool_call resp = some (.execute_command cmd) →
        ∃ inner px, regex_tag_value resp "tool_code" = some inner ∧
          regex_tag_value inner "tool_name" = some (("execute_command").data) ∧
          regex_tag_value inner "parameters" = some px ∧
          regex_tag_value px "command" = some cmd) := by
  refine ⟨?_, ?_, ?_, ?_, ?_, ?_, ?_, ?_, ?_, ?_⟩
  · intro resp h1
    simp only [parse_tool_call, h1]
  · intro resp inner h1 h2
    simp only [parse_tool_call, h1, h2]
  · intro resp inner tn h1 h2 h3
    simp only [parse_tool_call, h1, h2, h3]
  · intro resp inner px h1 h2 h3 h4
    unfold parse_tool_call
    rw [h1]
    dsimp only
    rw [h2]
    dsimp only
    rw [h3]
    dsimp only
    rw [if_pos rfl, h4]
  · intro resp inner px h1 h2 h3 h4
    unfold parse_tool_call
    rw [h1]
    dsimp only
    rw [h2]
    dsimp only
    rw [h3]
    dsimp only
    rw [if_neg (by decide), if_pos rfl, h4]
  · intro resp inner px h1 h2 h3 h4
    unfold parse_tool_call
    rw [h1]
    dsimp only
    rw [h2]
    dsimp only
    rw [h3]
    dsimp only
    rw [if_neg (by decide), if_neg (by decide), if_pos rfl, h4]
  · intro resp inner tn px h1 h2 h3 ht1 ht2 ht3
    unfold parse_tool_call
    rw [h1]
    dsimp only
    rw [h2]
    dsimp only
    rw [h3]
    dsimp only
    rw [if_neg ht1, if_neg ht2, if_neg ht3]
  · intro resp p c h
    exact parse_write_elim h
  · intro resp p sb rb h
    exact parse_diff_elim h
  · intro resp cmd h
    exact parse_exec_elim h

set_option maxRecDepth 100000 in
/-- C9 amended, witness: a string with no `tool_code` wrapper parses to
`none`, and a concrete `execute_command` call exposes its extracted
`command` anchor. -/
theorem parse_tool_call_required_params_witness :
    parse_tool_call (("hello").data) = none ∧
    (∃ inner px, regex_tag_value
        (("<tool_code><tool_name>execute_command</tool_name><parameters><command>ls</command></parameters></tool_code>").data)
        "tool_code" = some inner ∧
      regex_tag_value inner "tool_name" = some (("execute_command").data) ∧
      regex_tag_value inner "parameters" = some px ∧
      regex_tag_value px "command" = some (("ls").data)) := by
  have h := parse_tool_call_required_params
  exact ⟨h.1 (("hello").data) (by decide),
    h.2.2.2.2.2.2.2.2.2
      (("<tool_code><tool_name>execute_command</tool_name><parameters><command>ls</command></parameters></tool_code>").data)
      (("ls").data) (by decide)⟩

/-- C2 counterexample: on `"noise [ noise {"a": 1}"` the code returns `none`
(a `[` is present, so it commits to the bracket slice, and there is no `]`),
while the specified attempt order (c) — first `{` to last `}` — yields the
embedded object.  The code also never falls back from a failed fenced-block
parse. -/
theorem extract_json_order_cex :
    _extract_json (("noise [ noise \x7b\"a\": 1\x7d").data) = none ∧
    extractJSON_spec (("noise [ noise \x7b\"a\": 1\x7d").data)
      = some (.obj [(("a").data, .num (("1").data))]) := by
  exact ⟨rfl, rfl⟩

/-- C2 amended: `extract_json` strips the input and matches one *combined*
fenced-block pattern (optionally `json`-tagged); on a fenced match it returns
`json.loads` of the group with *no fallback* on parse failure.  Without a
fenced match it prefers brackets over braces: when a `[` occurs anywhere it
slices from the first `[` to the last `]` (failing when no `]` exists); only
when no `[` occurs does it slice from the first `{` to the last `}`; it
returns `none` when neither occurs.  No exception escapes (the function is
total). -/
theorem extract_json_staged :
    (∀ text body : List Char, fencedJsonBlock (pyStrip text) = some body →
        _extract_json text = json_loads body) ∧
    (∀ text : List Char, fencedJsonBlock (pyStrip text) = none →
        containsSub (pyStrip text) (("[").data) = true →
        _extract_json text
          = (match firstOcc (("[").data) (pyStrip text),
                lastOcc (("]").data) (pyStrip text) with
             | some st, some en => json_loads (slice (pyStrip text) st (en + 1))
             | some _, none => none
             | none, _ => none)) ∧
    (∀ text : List Char, fencedJsonBlock (pyStrip text) = none →
        containsSub (pyStrip text) (("[").data) = false →
        containsSub (pyStrip text) (("\x7b").data) = true →
        _extract_json text
          = (match firstOcc (("\x7b").data) (pyStrip text),
                lastOcc (("\x7d").data) (pyStrip text) with
             | some st, some en => json_loads (slice (pyStrip text) st (en + 1))
             | some _, none => none
             | none, _ => none)) ∧
    (∀ text : List Char, fencedJsonBlock (pyStrip text) = none →
        containsSub (pyStrip text) (("[").data) = false →
        containsSub (pyStrip text) (("\x7b").data) = false →
        _extract_json text = none) := by
  refine ⟨?_, ?_, ?_, ?_⟩
  · intro text body h
    unfold _extract_json
    dsimp only
    rw [h]
  · intro text h hb
    unfold _extract_json
    dsimp only
    rw [h, hb]
    dsimp only
    cases firstOcc (("[").data) (pyStrip text) <;>
      cases lastOcc (("]").data) (pyStrip text) <;> rfl
  · intro text h hb1 hb2
    unfold _extract_json
    dsimp only
    rw [h, hb1, hb2]
    dsimp only
    cases firstOcc (("\x7b").data) (pyStrip text) <;>
      cases lastOcc (("\x7d").data) (pyStrip text) <;> rfl
  · intro text h hb1 hb2
    unfold _extract_json
    dsimp only
    rw [h, hb1, hb2]
    rfl

/-- C2 amended, witness: a fenced block is parsed, and a string with no
bracket, brace or fence yields `none`. -/
theorem extract_json_staged_witness :
    _extract_json (("```[1]```").data) = json_loads (("[1]").data) ∧
    _extract_json (("no json here").data) = none := by
  exact ⟨extract_json_staged.1 (("```[1]```").data) (("[1]").data) (by decide),
    extract_json_staged.2.2.2 (("no json here").data) (by decide) (by decide) (by decide)⟩

end HITL
